import Mathlib

/-!
Verification of the Gomoku game-state engine in `src/components/App.jsx`.

The board is a fixed 15×15 grid (`BOARD_SIZE = 15`).  The JavaScript board is
an array of 15 rows of 15 cells; we embed it as a total function
`Nat → Nat → PieceType` together with bounds-checked accessors that mirror the
JavaScript indexing semantics: `board[row]` yields `undefined` (here: `none`)
when `row` is outside `[0, 15)`, and indexing into that `undefined` value
throws a `TypeError` (here: the `crash` outcome).
-/

namespace Wuziqi

/-- Constant BOARD_SIZE from the source: the board is 15×15. -/
def BOARD_SIZE : Nat := 15

/-- Cell values, `PIECE_TYPE` in the source (`EMPTY: 0, BLACK: 1, WHITE: 2`). -/
inductive PieceType where
  | empty
  | black
  | white
deriving DecidableEq, Repr

/-- Game status values, `GAME_STATUS` in the source. -/
inductive GameStatus where
  | playing
  | paused
  | blackWin
  | whiteWin
  | draw
deriving DecidableEq, Repr

/-- A board: 15×15 grid of cells, embedded as a total function.  Only the
values at coordinates below `BOARD_SIZE` are ever read or written. -/
abbrev Board := Nat → Nat → PieceType

/-- A move record `{row, col, player}` appended to `moveHistory` on each
successful placement. -/
structure Move where
  row : Int
  col : Int
  player : PieceType
deriving DecidableEq, Repr

/-- The engine state held by the `App` component: `board`, `currentPlayer`,
`gameStatus`, `moveHistory`, `lastMove`.  Presentation-only state
(`showModal`, `modalContent`, `errorMessage`) is out of scope. -/
structure GameState where
  board : Board
  currentPlayer : PieceType
  gameStatus : GameStatus
  moveHistory : List Move
  lastMove : Option (Int × Int)

/-- JavaScript `board[r]`: `some` row when `0 ≤ r < 15`, otherwise the array
access yields `undefined` (`none`). -/
def rowGet (b : Board) (r : Int) : Option (Nat → PieceType) :=
  if 0 ≤ r ∧ r < (BOARD_SIZE : Int) then some (b r.toNat) else none

/-- JavaScript `boardRow[c]`: `some` cell value when `0 ≤ c < 15`, otherwise
`undefined` (`none`). -/
def colGet (boardRow : Nat → PieceType) (c : Int) : Option PieceType :=
  if 0 ≤ c ∧ c < (BOARD_SIZE : Int) then some (boardRow c.toNat) else none

/-- The two-step read `board[r][c]`, defined when both indices are in range. -/
def getCell (b : Board) (r c : Int) : Option PieceType :=
  (rowGet b r).bind fun boardRow => colGet boardRow c

/-- The write `board[r][c] = p`.  In the source every such write happens at
in-range coordinates (after the emptiness check, or replaying accepted moves),
so the out-of-range case — modelled as a no-op — is never exercised. -/
def setCell (b : Board) (r c : Int) (p : PieceType) : Board :=
  if 0 ≤ r ∧ r < (BOARD_SIZE : Int) ∧ 0 ≤ c ∧ c < (BOARD_SIZE : Int) then
    fun i j => if i = r.toNat ∧ j = c.toNat then p else b i j
  else b

/-- The all-EMPTY board created by `initializeBoard` and by undo's rebuild. -/
def emptyBoard : Board := fun _ _ => PieceType.empty

/-- The four direction vectors scanned by `checkWin`: horizontal, vertical,
and the two diagonals. -/
def directions : List (Int × Int) := [(0, 1), (1, 0), (1, 1), (1, -1)]

/-- The bounded scan loop inside `checkWin`: starting from `(r, c)`, walk in
direction `(dx, dy)` for at most `fuel` steps, counting consecutive cells that
are in range and hold `player`'s stone, stopping at the first failure.  The
source runs each of the two loops with `fuel = 4` (`for i = 1; i < 5`). -/
def consecCount (b : Board) (player : PieceType) (dx dy : Int) : Int → Int → Nat → Nat
  | _, _, 0 => 0
  | r, c, fuel + 1 =>
    if getCell b (r + dx) (c + dy) = some player then
      1 + consecCount b player dx dy (r + dx) (c + dy) fuel
    else 0

/-- Function `checkWin(row, col, player)`: for each of the four orientations, count the
placed stone (as 1) plus the consecutive same-player stones in the direction
and its opposite (each scan bounded by 4 steps); the player wins if any
orientation reaches a total of at least 5. -/
def checkWin (b : Board) (row col : Int) (player : PieceType) : Bool :=
  directions.any fun d =>
    decide (5 ≤ 1 + consecCount b player d.1 d.2 row col 4
              + consecCount b player (-d.1) (-d.2) row col 4)

/-- Function `checkDraw()`: scan all cells; return false upon finding an EMPTY one,
true when the board is full. -/
def checkDraw (b : Board) : Bool :=
  (List.range BOARD_SIZE).all fun i =>
    (List.range BOARD_SIZE).all fun j => !(b i j == PieceType.empty)

/-- Toggling `currentPlayer === BLACK ? WHITE : BLACK`. -/
def togglePlayer (p : PieceType) : PieceType :=
  if p = PieceType.black then PieceType.white else PieceType.black

/-- Winner status `currentPlayer === BLACK ? BLACK_WIN : WHITE_WIN`. -/
def winnerStatus (p : PieceType) : GameStatus :=
  if p = PieceType.black then GameStatus.blackWin else GameStatus.whiteWin

/-- Reasons for which `handleCellClick` rejects a placement.  The source has
exactly these two early returns; there is no out-of-bounds check. -/
inductive PlaceError where
  | gameNotInProgress
  | cellOccupied
deriving DecidableEq, Repr

/-- Outcome of `handleCellClick`: a new state, a rejection (carrying the
unchanged state, since the early return leaves all React state untouched), or
a thrown `TypeError` (`board[row]` was `undefined` and got indexed). -/
inductive PlaceResult where
  | ok (next : GameState)
  | rejected (e : PlaceError) (next : GameState)
  | crash

/-- Function `handleCellClick(row, col)`: reject unless the status is PLAYING; read
`board[row][col]` (crashing when `board[row]` is `undefined`, and falling into
the occupied branch when the read value is not `EMPTY` — which includes the
`undefined` produced by an out-of-range `col`); otherwise place the stone,
append the move, update `lastMove`, and run the win/draw evaluation.  Both
`checkWin` and `checkDraw` are invoked on the closure's board `s.board`, the
snapshot from before the placement. -/
def handleCellClick (s : GameState) (row col : Int) : PlaceResult :=
  if s.gameStatus ≠ GameStatus.playing then
    PlaceResult.rejected PlaceError.gameNotInProgress s
  else
    match rowGet s.board row with
    | none => PlaceResult.crash
    | some boardRow =>
      if colGet boardRow col ≠ some PieceType.empty then
        PlaceResult.rejected PlaceError.cellOccupied s
      else
        let newBoard := setCell s.board row col s.currentPlayer
        let newMoveHistory :=
          s.moveHistory ++ [{ row := row, col := col, player := s.currentPlayer }]
        if checkWin s.board row col s.currentPlayer then
          PlaceResult.ok
            { board := newBoard, currentPlayer := s.currentPlayer,
              gameStatus := winnerStatus s.currentPlayer,
              moveHistory := newMoveHistory, lastMove := some (row, col) }
        else if checkDraw s.board then
          PlaceResult.ok
            { board := newBoard, currentPlayer := s.currentPlayer,
              gameStatus := GameStatus.draw,
              moveHistory := newMoveHistory, lastMove := some (row, col) }
        else
          PlaceResult.ok
            { board := newBoard, currentPlayer := togglePlayer s.currentPlayer,
              gameStatus := s.gameStatus,
              moveHistory := newMoveHistory, lastMove := some (row, col) }

/-- Applying one history entry during undo's rebuild:
`newBoard[move.row][move.col] = move.player`. -/
def applyMove (b : Board) (m : Move) : Board :=
  setCell b m.row m.col m.player

/-- Undo's rebuild: start from a fresh all-EMPTY board and apply each
remaining history entry in order. -/
def replayBoard (h : List Move) : Board :=
  h.foldl applyMove emptyBoard

/-- The single rejection reason of `handleUndo`. -/
inductive UndoError where
  | nothingToUndo
deriving DecidableEq, Repr

/-- Outcome of `handleUndo`; a rejection carries the unchanged state. -/
inductive UndoResult where
  | ok (next : GameState)
  | rejected (e : UndoError) (next : GameState)

/-- Function `handleUndo()`: reject when the history is empty; otherwise drop the last
move, rebuild the board by replaying the remaining history, recompute
`lastMove` from the new last entry, hand the turn back to the undone move's
player, and force the status back to PLAYING. -/
def handleUndo (s : GameState) : UndoResult :=
  match s.moveHistory.getLast? with
  | none => UndoResult.rejected UndoError.nothingToUndo s
  | some lastMv =>
    let newMoveHistory := s.moveHistory.dropLast
    UndoResult.ok
      { board := replayBoard newMoveHistory,
        currentPlayer := lastMv.player,
        gameStatus := GameStatus.playing,
        moveHistory := newMoveHistory,
        lastMove := newMoveHistory.getLast?.map fun m => (m.row, m.col) }

/-- Function `handlePauseResume()`: PLAYING → PAUSED, PAUSED → PLAYING, and any other
status leaves the state untouched. -/
def handlePauseResume (s : GameState) : GameState :=
  if s.gameStatus = GameStatus.playing then { s with gameStatus := GameStatus.paused }
  else if s.gameStatus = GameStatus.paused then { s with gameStatus := GameStatus.playing }
  else s

/-- The state produced by `initializeBoard` (game start / reset): all-EMPTY
board, BLACK to move, status PLAYING, empty history, no last move. -/
def resetState : GameState :=
  { board := emptyBoard, currentPlayer := PieceType.black,
    gameStatus := GameStatus.playing, moveHistory := [], lastMove := none }

/-- States reachable from reset through the engine operations. -/
inductive Reachable : GameState → Prop where
  | init : Reachable resetState
  | place (s s' : GameState) (r c : Int) :
      Reachable s → handleCellClick s r c = PlaceResult.ok s' → Reachable s'
  | undo (s s' : GameState) :
      Reachable s → handleUndo s = UndoResult.ok s' → Reachable s'
  | pause (s : GameState) : Reachable s → Reachable (handlePauseResume s)


/-! Basic cell-access lemmas -/

/-- Coordinates addressing an actual cell of the 15×15 grid. -/
def inside (r c : Int) : Prop :=
  0 ≤ r ∧ r < (BOARD_SIZE : Int) ∧ 0 ≤ c ∧ c < (BOARD_SIZE : Int)

instance (r c : Int) : Decidable (inside r c) := by
  unfold inside; infer_instance

lemma getCell_def_ite (b : Board) (r c : Int) :
    getCell b r c = if inside r c then some (b r.toNat c.toNat) else none := by
  unfold getCell rowGet colGet inside
  by_cases h1 : 0 ≤ r ∧ r < (BOARD_SIZE : Int) <;>
    by_cases h2 : 0 ≤ c ∧ c < (BOARD_SIZE : Int) <;>
    simp [h1, h2]

lemma getCell_eq_some_iff (b : Board) (r c : Int) (v : PieceType) :
    getCell b r c = some v ↔ inside r c ∧ b r.toNat c.toNat = v := by
  rw [getCell_def_ite]
  by_cases h : inside r c <;> simp [h]

lemma setCell_of_inside (b : Board) (r c : Int) (p : PieceType) (h : inside r c) :
    setCell b r c p = fun i j => if i = r.toNat ∧ j = c.toNat then p else b i j := by
  unfold setCell inside at *
  simp [h.1, h.2.1, h.2.2.1, h.2.2.2]

lemma getCell_setCell_self (b : Board) (r c : Int) (p : PieceType) :
    getCell (setCell b r c p) r c = if inside r c then some p else none := by
  by_cases h : inside r c
  · rw [setCell_of_inside b r c p h, getCell_def_ite]
    simp [h]
  · have hb : ¬(0 ≤ r ∧ r < (BOARD_SIZE : Int) ∧ 0 ≤ c ∧ c < (BOARD_SIZE : Int)) := h
    unfold setCell
    rw [if_neg hb, getCell_def_ite]
    simp [h]

lemma getCell_setCell_ne (b : Board) (r c r₁ c₁ : Int) (p : PieceType)
    (h : ¬(r₁ = r ∧ c₁ = c)) :
    getCell (setCell b r c p) r₁ c₁ = getCell b r₁ c₁ := by
  by_cases hb : inside r c
  · rw [setCell_of_inside b r c p hb, getCell_def_ite, getCell_def_ite]
    by_cases hb1 : inside r₁ c₁
    · simp only [hb1, if_true, Option.some.injEq]
      rw [if_neg]
      unfold inside at hb hb1
      rintro ⟨e1, e2⟩
      exact h ⟨by omega, by omega⟩
    · simp [hb1]
  · unfold setCell
    unfold inside at hb
    simp [hb]

lemma getCell_emptyBoard (r c : Int) (h : inside r c) :
    getCell emptyBoard r c = some PieceType.empty := by
  rw [getCell_def_ite]
  simp [h, emptyBoard]

/-! Replay lemmas -/

lemma replayBoard_nil : replayBoard [] = emptyBoard := rfl

lemma replayBoard_concat (h : List Move) (m : Move) :
    replayBoard (h ++ [m]) = applyMove (replayBoard h) m := by
  unfold replayBoard
  rw [List.foldl_append]
  rfl

lemma getCell_foldl_of_not_mem (r c : Int) :
    ∀ (h : List Move) (b : Board), (∀ m ∈ h, ¬(m.row = r ∧ m.col = c)) →
      getCell (h.foldl applyMove b) r c = getCell b r c := by
  intro h
  induction h with
  | nil => intro b _; rfl
  | cons m t ih =>
    intro b hnm
    rw [List.foldl_cons,
      ih (applyMove b m) (fun m₁ hm₁ => hnm m₁ (List.mem_cons_of_mem _ hm₁))]
    apply getCell_setCell_ne
    intro he
    exact hnm m (List.mem_cons_self m t) ⟨he.1.symm, he.2.symm⟩

lemma getCell_replayBoard_of_not_mem (h : List Move) (r c : Int) (hb : inside r c)
    (hnm : ∀ m ∈ h, ¬(m.row = r ∧ m.col = c)) :
    getCell (replayBoard h) r c = some PieceType.empty := by
  unfold replayBoard
  rw [getCell_foldl_of_not_mem r c h emptyBoard hnm]
  exact getCell_emptyBoard r c hb

lemma getCell_foldl_stays_ne_empty (r c : Int) :
    ∀ (h : List Move) (b : Board), (∀ m ∈ h, m.player ≠ PieceType.empty) →
      getCell b r c ≠ some PieceType.empty →
      getCell (h.foldl applyMove b) r c ≠ some PieceType.empty := by
  intro h
  induction h with
  | nil => intro b _ h0; exact h0
  | cons m t ih =>
    intro b hp h0
    rw [List.foldl_cons]
    apply ih (applyMove b m) (fun m₁ hm₁ => hp m₁ (List.mem_cons_of_mem _ hm₁))
    by_cases hc : r = m.row ∧ c = m.col
    · obtain ⟨h1, h2⟩ := hc
      unfold applyMove
      rw [h1, h2, getCell_setCell_self]
      by_cases hbm : inside m.row m.col
      · simp only [hbm, if_true]
        intro he
        exact hp m (List.mem_cons_self m t) (Option.some.inj he)
      · simp [hbm]
    · unfold applyMove
      rw [getCell_setCell_ne _ _ _ _ _ _ hc]
      exact h0

lemma getCell_replayBoard_of_mem (h : List Move) (m₀ : Move)
    (hp : ∀ m ∈ h, m.player ≠ PieceType.empty) (hb : inside m₀.row m₀.col)
    (hm₀ : m₀ ∈ h) :
    getCell (replayBoard h) m₀.row m₀.col ≠ some PieceType.empty := by
  suffices hgen : ∀ (t : List Move) (b : Board),
      (∀ m ∈ t, m.player ≠ PieceType.empty) → m₀ ∈ t →
      getCell (t.foldl applyMove b) m₀.row m₀.col ≠ some PieceType.empty by
    exact hgen h emptyBoard hp hm₀
  intro t
  induction t with
  | nil => intro b _ hm; cases hm
  | cons m u ih =>
    intro b hpt hm
    rw [List.foldl_cons]
    rcases List.mem_cons.mp hm with he | hu
    · subst he
      apply getCell_foldl_stays_ne_empty _ _ u (applyMove b m₀)
        (fun m₁ hm₁ => hpt m₁ (List.mem_cons_of_mem _ hm₁))
      unfold applyMove
      rw [getCell_setCell_self]
      simp only [hb, if_true]
      intro he₁
      exact hpt m₀ (List.mem_cons_self m₀ u) (Option.some.inj he₁)
    · exact ih (applyMove b m) (fun m₁ hm₁ => hpt m₁ (List.mem_cons_of_mem _ hm₁)) hu

/-! Counting stones -/

/-- The index set of the 15×15 grid. -/
def cellSquare : Finset (Nat × Nat) :=
  Finset.range BOARD_SIZE ×ˢ Finset.range BOARD_SIZE

/-- Number of cells holding piece `p`. -/
def countPiece (b : Board) (p : PieceType) : Nat :=
  Finset.sum cellSquare fun x => if b x.1 x.2 = p then 1 else 0

/-- Number of non-EMPTY cells (the board's population count). -/
def popcount (b : Board) : Nat :=
  Finset.sum cellSquare fun x => if b x.1 x.2 ≠ PieceType.empty then 1 else 0

lemma popcount_eq_counts (b : Board) :
    popcount b = countPiece b PieceType.black + countPiece b PieceType.white := by
  unfold popcount countPiece
  rw [← Finset.sum_add_distrib]
  apply Finset.sum_congr rfl
  intro x _
  cases hx : b x.1 x.2 <;> simp [hx]

lemma countPiece_emptyBoard (p : PieceType) (hp : p ≠ PieceType.empty) :
    countPiece emptyBoard p = 0 := by
  unfold countPiece emptyBoard
  have : ∀ x ∈ cellSquare, (if PieceType.empty = p then 1 else 0) = 0 := by
    intro x _
    exact if_neg fun he => hp he.symm
  simp only [Finset.sum_congr rfl this, Finset.sum_const_zero]

lemma mem_cellSquare_of_inside (r c : Int) (h : inside r c) :
    (r.toNat, c.toNat) ∈ cellSquare := by
  unfold inside BOARD_SIZE at h
  simp only [cellSquare, Finset.mem_product, Finset.mem_range, BOARD_SIZE]
  omega

lemma countPiece_setCell (b : Board) (r c : Int) (p q : PieceType) (hb : inside r c) :
    countPiece (setCell b r c p) q + (if b r.toNat c.toNat = q then 1 else 0)
      = countPiece b q + (if p = q then 1 else 0) := by
  have hmem := mem_cellSquare_of_inside r c hb
  unfold countPiece
  rw [← Finset.sum_erase_add cellSquare
        (fun x => if setCell b r c p x.1 x.2 = q then 1 else 0) hmem,
      ← Finset.sum_erase_add cellSquare
        (fun x => if b x.1 x.2 = q then 1 else 0) hmem]
  have hsame :
      (Finset.sum (cellSquare.erase (r.toNat, c.toNat))
        fun x => if setCell b r c p x.1 x.2 = q then 1 else 0)
      = Finset.sum (cellSquare.erase (r.toNat, c.toNat))
        fun x => if b x.1 x.2 = q then 1 else 0 := by
    apply Finset.sum_congr rfl
    intro x hx
    have hne : x ≠ (r.toNat, c.toNat) := Finset.ne_of_mem_erase hx
    have hcell : setCell b r c p x.1 x.2 = b x.1 x.2 := by
      rw [setCell_of_inside b r c p hb]
      show (if x.1 = r.toNat ∧ x.2 = c.toNat then p else b x.1 x.2) = b x.1 x.2
      exact if_neg fun hcond => hne (Prod.ext_iff.mpr ⟨hcond.1, hcond.2⟩)
    rw [hcell]
  have hx0 : setCell b r c p r.toNat c.toNat = p := by
    rw [setCell_of_inside b r c p hb]
    show (if r.toNat = r.toNat ∧ c.toNat = c.toNat then p else b r.toNat c.toNat) = p
    rw [if_pos ⟨rfl, rfl⟩]
  rw [hsame]
  dsimp only
  rw [hx0]
  omega

/-! Well-formed histories -/

/-- The player on turn `i` (0-based): BLACK moves first, strict alternation. -/
def playerAt (i : Nat) : PieceType :=
  if i % 2 = 0 then PieceType.black else PieceType.white

/-- Well-formedness of a move history: every move targets a grid cell, players
alternate starting with BLACK, and no two moves target the same cell. -/
structure HistOK (h : List Move) : Prop where
  bounds : ∀ m ∈ h, inside m.row m.col
  alt : ∀ i (hi : i < h.length), (h.get ⟨i, hi⟩).player = playerAt i
  nodup : (h.map fun m => (m.row, m.col)).Nodup

lemma playerAt_ne_empty (i : Nat) : playerAt i ≠ PieceType.empty := by
  unfold playerAt
  split <;> simp

lemma togglePlayer_playerAt (n : Nat) : togglePlayer (playerAt n) = playerAt (n + 1) := by
  unfold togglePlayer playerAt
  by_cases hn : n % 2 = 0
  · have h1 : ¬((n + 1) % 2 = 0) := by omega
    simp [hn, h1]
  · have h1 : (n + 1) % 2 = 0 := by omega
    simp [hn, h1]

lemma histOK_player_ne_empty (h : List Move) (hok : HistOK h) :
    ∀ m ∈ h, m.player ≠ PieceType.empty := by
  intro m hm
  obtain ⟨⟨i, hi⟩, he⟩ := List.mem_iff_get.mp hm
  rw [← he, hok.alt i hi]
  exact playerAt_ne_empty i

lemma histOK_nil : HistOK [] := by
  refine ⟨?_, ?_, ?_⟩
  · intro m hm
    cases hm
  · intro i hi
    simp at hi
  · simp

lemma get_concat_self (h : List Move) (m : Move) (hi : h.length < (h ++ [m]).length) :
    (h ++ [m]).get ⟨h.length, hi⟩ = m := by
  rw [List.get_append_right] <;> simp

lemma get_concat_left (h : List Move) (m : Move) (i : Nat) (hi : i < h.length)
    (hi2 : i < (h ++ [m]).length) :
    (h ++ [m]).get ⟨i, hi2⟩ = h.get ⟨i, hi⟩ := by
  rw [List.get_append]

lemma histOK_of_concat (h : List Move) (m : Move) (hok : HistOK (h ++ [m])) :
    HistOK h := by
  refine ⟨?_, ?_, ?_⟩
  · intro m₁ hm₁
    exact hok.bounds m₁ (List.mem_append_left _ hm₁)
  · intro i hi
    have hi2 : i < (h ++ [m]).length := by simp; omega
    rw [← get_concat_left h m i hi hi2]
    exact hok.alt i hi2
  · have := hok.nodup
    rw [List.map_append, List.nodup_append] at this
    exact this.1

lemma histOK_concat_cell_fresh (h : List Move) (m : Move) (hok : HistOK (h ++ [m])) :
    ∀ m₁ ∈ h, ¬(m₁.row = m.row ∧ m₁.col = m.col) := by
  intro m₁ hm₁ hc
  obtain ⟨h1, h2⟩ := hc
  have hnd := hok.nodup
  rw [List.map_append, List.nodup_append] at hnd
  have hmem1 : (m.row, m.col) ∈ h.map fun m₂ => (m₂.row, m₂.col) := by
    rw [← h1, ← h2]
    exact List.mem_map_of_mem _ hm₁
  have hmem2 : (m.row, m.col) ∈ [m].map fun m₂ => (m₂.row, m₂.col) := by simp
  exact hnd.2.2 hmem1 hmem2

lemma histOK_concat_player (h : List Move) (m : Move) (hok : HistOK (h ++ [m])) :
    m.player = playerAt h.length := by
  have hi : h.length < (h ++ [m]).length := by simp
  have := hok.alt h.length hi
  rwa [get_concat_self] at this

/-- Stone counts of a replayed well-formed history: BLACK has `⌈n/2⌉` stones
and WHITE `⌊n/2⌋` where `n` is the history length. -/
lemma countPiece_replayBoard (h : List Move) (hok : HistOK h) :
    countPiece (replayBoard h) PieceType.black = (h.length + 1) / 2 ∧
    countPiece (replayBoard h) PieceType.white = h.length / 2 := by
  induction h using List.reverseRecOn with
  | nil =>
    constructor <;> simp [replayBoard_nil, countPiece_emptyBoard]
  | append_singleton h m ih =>
    have hok' := histOK_of_concat h m hok
    obtain ⟨ihb, ihw⟩ := ih hok'
    have hbm : inside m.row m.col := hok.bounds m (by simp)
    have hpm : m.player = playerAt h.length := histOK_concat_player h m hok
    have hempty : getCell (replayBoard h) m.row m.col = some PieceType.empty := by
      apply getCell_replayBoard_of_not_mem h _ _ hbm
      exact histOK_concat_cell_fresh h m hok
    have hraw : replayBoard h m.row.toNat m.col.toNat = PieceType.empty :=
      ((getCell_eq_some_iff _ _ _ _).mp hempty).2
    rw [replayBoard_concat]
    unfold applyMove
    have hcb := countPiece_setCell (replayBoard h) m.row m.col m.player PieceType.black hbm
    have hcw := countPiece_setCell (replayBoard h) m.row m.col m.player PieceType.white hbm
    rw [hraw] at hcb hcw
    simp only [List.length_append, List.length_singleton]
    unfold playerAt at hpm
    by_cases hpar : h.length % 2 = 0
    · rw [if_pos hpar] at hpm
      rw [hpm] at hcb hcw ⊢
      simp at hcb hcw
      constructor <;> omega
    · rw [if_neg hpar] at hpm
      rw [hpm] at hcb hcw ⊢
      simp at hcb hcw
      constructor <;> omega

/-! The reachable-state invariant -/

lemma histOK_concat (h : List Move) (m : Move) (hok : HistOK h)
    (hb : inside m.row m.col) (hp : m.player = playerAt h.length)
    (hfresh : ∀ m₁ ∈ h, ¬(m₁.row = m.row ∧ m₁.col = m.col)) :
    HistOK (h ++ [m]) := by
  refine ⟨?_, ?_, ?_⟩
  · intro m₁ hm₁
    rcases List.mem_append.mp hm₁ with h1 | h1
    · exact hok.bounds m₁ h1
    · rw [List.mem_singleton.mp h1]
      exact hb
  · intro i hi
    by_cases hlt : i < h.length
    · rw [get_concat_left h m i hlt hi]
      exact hok.alt i hlt
    · have hieq : i = h.length := by
        simp only [List.length_append, List.length_singleton] at hi
        omega
      subst hieq
      rw [get_concat_self h m hi]
      exact hp
  · rw [List.map_append, List.nodup_append]
    refine ⟨hok.nodup, by simp, ?_⟩
    intro a ha1 ha2
    simp only [List.map_singleton, List.mem_singleton] at ha2
    obtain ⟨m₁, hm₁, he⟩ := List.mem_map.mp ha1
    apply hfresh m₁ hm₁
    rw [ha2] at he
    exact ⟨congrArg Prod.fst he, congrArg Prod.snd he⟩

/-- Invariant of every reachable state: the board is exactly the replay of the
history, the history is well formed, and while the game is live (PLAYING or
PAUSED) the player on turn is determined by the history length. -/
def Inv (s : GameState) : Prop :=
  s.board = replayBoard s.moveHistory ∧ HistOK s.moveHistory ∧
  ((s.gameStatus = GameStatus.playing ∨ s.gameStatus = GameStatus.paused) →
    s.currentPlayer = playerAt s.moveHistory.length)

lemma inv_resetState : Inv resetState := by
  exact ⟨rfl, histOK_nil, fun _ => rfl⟩

lemma winnerStatus_not_live (p : PieceType) :
    winnerStatus p ≠ GameStatus.playing ∧ winnerStatus p ≠ GameStatus.paused := by
  unfold winnerStatus
  split <;> exact ⟨by simp, by simp⟩

lemma inv_place (s s' : GameState) (r c : Int)
    (hInv : Inv s) (hok : handleCellClick s r c = PlaceResult.ok s') : Inv s' := by
  obtain ⟨hboard, hhist, hplayer⟩ := hInv
  unfold handleCellClick at hok
  split at hok
  · exact PlaceResult.noConfusion hok
  next hst =>
  split at hok
  · exact PlaceResult.noConfusion hok
  next boardRow heq =>
  split at hok
  · exact PlaceResult.noConfusion hok
  next hocc =>
  have hstp : s.gameStatus = GameStatus.playing := not_not.mp hst
  have hcell : getCell s.board r c = some PieceType.empty := by
    unfold getCell
    rw [heq]
    exact not_not.mp hocc
  have hin : inside r c := ((getCell_eq_some_iff _ _ _ _).mp hcell).1
  have hcur : s.currentPlayer = playerAt s.moveHistory.length :=
    hplayer (Or.inl hstp)
  have hfresh : ∀ m₁ ∈ s.moveHistory, ¬(m₁.row = r ∧ m₁.col = c) := by
    intro m₁ hm₁ hc
    obtain ⟨e1, e2⟩ := hc
    have hne := getCell_replayBoard_of_mem s.moveHistory m₁
      (histOK_player_ne_empty _ hhist) (hhist.bounds m₁ hm₁) hm₁
    rw [e1, e2, ← hboard] at hne
    exact hne hcell
  have hhist2 : HistOK (s.moveHistory ++
      [{ row := r, col := c, player := s.currentPlayer }]) := by
    apply histOK_concat _ _ hhist hin
    · exact hcur
    · exact hfresh
  have hboard2 : setCell s.board r c s.currentPlayer =
      replayBoard (s.moveHistory ++ [{ row := r, col := c, player := s.currentPlayer }]) := by
    rw [hboard, replayBoard_concat]
    rfl
  split at hok
  · injection hok with h2
    subst h2
    refine ⟨hboard2, hhist2, ?_⟩
    intro hlive
    exfalso
    rcases hlive with h3 | h3
    · exact (winnerStatus_not_live s.currentPlayer).1 h3
    · exact (winnerStatus_not_live s.currentPlayer).2 h3
  split at hok
  · injection hok with h2
    subst h2
    refine ⟨hboard2, hhist2, ?_⟩
    intro hlive
    exfalso
    rcases hlive with h3 | h3 <;> exact GameStatus.noConfusion h3
  · injection hok with h2
    subst h2
    refine ⟨hboard2, hhist2, ?_⟩
    intro _
    simp only [List.length_append, List.length_singleton]
    rw [hcur, togglePlayer_playerAt]

lemma inv_undo (s s' : GameState) (hInv : Inv s)
    (hok : handleUndo s = UndoResult.ok s') : Inv s' := by
  obtain ⟨hboard, hhist, hplayer⟩ := hInv
  unfold handleUndo at hok
  split at hok
  · exact UndoResult.noConfusion hok
  next lastMv heq =>
  injection hok with h2
  subst h2
  have hne : s.moveHistory ≠ [] := by
    intro h0
    rw [h0] at heq
    exact Option.noConfusion heq
  have hdec : s.moveHistory = s.moveHistory.dropLast ++ [lastMv] := by
    rw [List.getLast?_eq_getLast _ hne] at heq
    rw [← Option.some.inj heq]
    exact (List.dropLast_append_getLast hne).symm
  have hhist2 : HistOK (s.moveHistory.dropLast ++ [lastMv]) := hdec ▸ hhist
  refine ⟨rfl, histOK_of_concat _ _ hhist2, ?_⟩
  intro _
  exact histOK_concat_player _ _ hhist2

lemma inv_pause (s : GameState) (hInv : Inv s) : Inv (handlePauseResume s) := by
  obtain ⟨hb, hh, hp⟩ := hInv
  unfold handlePauseResume
  by_cases h1 : s.gameStatus = GameStatus.playing
  · rw [if_pos h1]
    exact ⟨hb, hh, fun _ => hp (Or.inl h1)⟩
  · rw [if_neg h1]
    by_cases h2 : s.gameStatus = GameStatus.paused
    · rw [if_pos h2]
      exact ⟨hb, hh, fun _ => hp (Or.inr h2)⟩
    · rw [if_neg h2]
      exact ⟨hb, hh, hp⟩

lemma inv_of_reachable (s : GameState) (h : Reachable s) : Inv s := by
  induction h with
  | init => exact inv_resetState
  | place s s' r c _ hok ih => exact inv_place s s' r c ih hok
  | undo s s' _ hok ih => exact inv_undo s s' ih hok
  | pause s _ ih => exact inv_pause s ih

/-! Concrete helper states -/

/-- The first move of a game: BLACK at (0,0). -/
def mv0 : Move := { row := 0, col := 0, player := PieceType.black }

/-- The state after BLACK's opening move at (0,0). -/
def oneMoveState : GameState :=
  { board := setCell emptyBoard 0 0 PieceType.black,
    currentPlayer := PieceType.white,
    gameStatus := GameStatus.playing,
    moveHistory := [mv0],
    lastMove := some (0, 0) }

lemma place_first : handleCellClick resetState 0 0 = PlaceResult.ok oneMoveState := rfl

lemma reachable_oneMoveState : Reachable oneMoveState :=
  Reachable.place resetState oneMoveState 0 0 Reachable.init place_first

/-! Claim theorems -/

/-- Claim C4: in every state reachable from reset through the engine
operations, the number of non-EMPTY cells equals the history length, and
BLACK's stone count exceeds WHITE's by 0 or 1. -/
theorem C4_population_invariant (s : GameState) (h : Reachable s) :
    popcount s.board = s.moveHistory.length ∧
    (countPiece s.board PieceType.black = countPiece s.board PieceType.white ∨
     countPiece s.board PieceType.black = countPiece s.board PieceType.white + 1) := by
  obtain ⟨hboard, hhist, _⟩ := inv_of_reachable s h
  obtain ⟨hb, hw⟩ := countPiece_replayBoard s.moveHistory hhist
  rw [hboard, popcount_eq_counts, hb, hw]
  omega

/-- Witness for C4 at a concrete reachable state. -/
theorem C4_population_invariant_witness :
    Reachable oneMoveState ∧
    (popcount oneMoveState.board = oneMoveState.moveHistory.length ∧
     (countPiece oneMoveState.board PieceType.black
        = countPiece oneMoveState.board PieceType.white ∨
      countPiece oneMoveState.board PieceType.black
        = countPiece oneMoveState.board PieceType.white + 1)) :=
  ⟨reachable_oneMoveState, C4_population_invariant oneMoveState reachable_oneMoveState⟩

/-- Claim C8: in every reachable state, replaying the move history from an
all-EMPTY board (undo's rebuild path) reproduces the board built
incrementally by the accepted placements. -/
theorem C8_replay_matches_incremental (s : GameState) (h : Reachable s) :
    replayBoard s.moveHistory = s.board :=
  ((inv_of_reachable s h).1).symm

/-- Witness for C8 at a concrete reachable state. -/
theorem C8_replay_matches_incremental_witness :
    Reachable oneMoveState ∧ replayBoard oneMoveState.moveHistory = oneMoveState.board :=
  ⟨reachable_oneMoveState, C8_replay_matches_incremental oneMoveState reachable_oneMoveState⟩

/-- Claim C7: `handlePauseResume` sends PLAYING to PAUSED and PAUSED to
PLAYING, and leaves every other status unchanged. -/
theorem C7_togglePause (s : GameState) :
    (handlePauseResume s).gameStatus =
      match s.gameStatus with
      | GameStatus.playing => GameStatus.paused
      | GameStatus.paused => GameStatus.playing
      | st => st := by
  unfold handlePauseResume
  cases hs : s.gameStatus <;> simp [hs]

/-- Claim C10: `handlePauseResume` never changes the board, the move history,
the current player, or the last move; only the status field can change. -/
theorem C10_pause_frame (s : GameState) :
    (handlePauseResume s).board = s.board ∧
    (handlePauseResume s).moveHistory = s.moveHistory ∧
    (handlePauseResume s).currentPlayer = s.currentPlayer ∧
    (handlePauseResume s).lastMove = s.lastMove := by
  by_cases h1 : s.gameStatus = GameStatus.playing
  · simp [handlePauseResume, h1]
  · by_cases h2 : s.gameStatus = GameStatus.paused <;>
      simp [handlePauseResume, h1, h2]

/-- Claim C5: with a non-empty history `h ++ [m]`, undo removes exactly `m`,
rebuilds the board as the replay of `h`, recomputes `lastMove` from the new
last entry, hands the turn to `m`'s player, and forces status PLAYING; with an
empty history it reports `NothingToUndo` and changes nothing. -/
theorem C5_undo (s : GameState) :
    (∀ (h : List Move) (m : Move), s.moveHistory = h ++ [m] →
      handleUndo s = UndoResult.ok
        { board := replayBoard h, currentPlayer := m.player,
          gameStatus := GameStatus.playing, moveHistory := h,
          lastMove := h.getLast?.map fun mv => (mv.row, mv.col) }) ∧
    (s.moveHistory = [] →
      handleUndo s = UndoResult.rejected UndoError.nothingToUndo s) := by
  constructor
  · intro h m hdec
    unfold handleUndo
    rw [hdec, List.getLast?_concat]
    simp only [List.dropLast_concat]
  · intro h0
    unfold handleUndo
    rw [h0]
    rfl

/-- Witness for C5: undoing the opening move, and undo on the fresh game. -/
theorem C5_undo_witness :
    (oneMoveState.moveHistory = [] ++ [mv0] ∧
      handleUndo oneMoveState = UndoResult.ok
        { board := replayBoard [], currentPlayer := mv0.player,
          gameStatus := GameStatus.playing, moveHistory := [],
          lastMove := ([] : List Move).getLast?.map fun mv => (mv.row, mv.col) }) ∧
    (resetState.moveHistory = [] ∧
      handleUndo resetState = UndoResult.rejected UndoError.nothingToUndo resetState) :=
  ⟨⟨rfl, (C5_undo oneMoveState).1 [] mv0 rfl⟩, ⟨rfl, (C5_undo resetState).2 rfl⟩⟩

/-- A paused game whose cell (0,0) is occupied (the opening move, then
pause). -/
def pausedOccState : GameState :=
  { board := setCell emptyBoard 0 0 PieceType.black,
    currentPlayer := PieceType.white,
    gameStatus := GameStatus.paused,
    moveHistory := [mv0],
    lastMove := some (0, 0) }

/-- Counterexample to C2 as stated: there is no OutOfBounds rejection.  A
click with the row out of range crashes on the `board[row][col]` read
(`board[15]` is `undefined`), and a click with only the column out of range is
reported through the occupied-cell branch (`undefined !== EMPTY`). -/
theorem C2_counterexample :
    handleCellClick resetState 15 0 = PlaceResult.crash ∧
    handleCellClick resetState 0 15 =
      PlaceResult.rejected PlaceError.cellOccupied resetState := by
  constructor <;> rfl

/-- Amended C2: during PLAYING, an out-of-bounds placement is rejected through
the occupied-cell branch when the row is in range (state unchanged), and the
cell read itself fails when the row is out of range; no OutOfBounds reason
exists in the code. -/
theorem C2_oob_behavior (s : GameState) (r c : Int)
    (hst : s.gameStatus = GameStatus.playing) (hoob : ¬ inside r c) :
    (0 ≤ r ∧ r < (BOARD_SIZE : Int) →
      handleCellClick s r c = PlaceResult.rejected PlaceError.cellOccupied s) ∧
    (¬(0 ≤ r ∧ r < (BOARD_SIZE : Int)) → handleCellClick s r c = PlaceResult.crash) := by
  constructor
  · intro hr
    have hc : ¬(0 ≤ c ∧ c < (BOARD_SIZE : Int)) := by
      unfold inside at hoob
      tauto
    unfold handleCellClick
    rw [if_neg (not_not_intro hst)]
    unfold rowGet
    rw [if_pos hr]
    dsimp only
    unfold colGet
    rw [if_neg hc]
    rw [if_pos (by exact fun he => Option.noConfusion he)]
  · intro hr
    unfold handleCellClick
    rw [if_neg (not_not_intro hst)]
    unfold rowGet
    rw [if_neg hr]
/-- Witness for the amended C2 at concrete out-of-bounds inputs. -/
theorem C2_oob_behavior_witness :
    resetState.gameStatus = GameStatus.playing ∧ ¬ inside 0 15 ∧
    handleCellClick resetState 0 15 =
      PlaceResult.rejected PlaceError.cellOccupied resetState :=
  ⟨rfl, by decide, (C2_oob_behavior resetState 0 15 rfl (by decide)).1 (by decide)⟩

/-- Counterexample to C6 as stated: on a non-PLAYING state the status check
fires first, so a click on an occupied cell is rejected with
`GameNotInProgress`, not `CellOccupied`. -/
theorem C6_counterexample :
    getCell pausedOccState.board 0 0 = some PieceType.black ∧
    handleCellClick pausedOccState 0 0 =
      PlaceResult.rejected PlaceError.gameNotInProgress pausedOccState ∧
    PlaceError.gameNotInProgress ≠ PlaceError.cellOccupied := by
  refine ⟨by decide, rfl, by decide⟩

/-- Amended C6: a placement on an in-bounds occupied cell is always rejected
with the state unchanged; the reason is CellOccupied when the status is
PLAYING and GameNotInProgress otherwise. -/
theorem C6_occupied_rejected (s : GameState) (r c : Int) (p : PieceType)
    (hcell : getCell s.board r c = some p) (hp : p ≠ PieceType.empty) :
    handleCellClick s r c = PlaceResult.rejected
      (if s.gameStatus = GameStatus.playing then PlaceError.cellOccupied
       else PlaceError.gameNotInProgress) s := by
  by_cases hst : s.gameStatus = GameStatus.playing
  · rw [if_pos hst]
    obtain ⟨hin, hraw⟩ := (getCell_eq_some_iff _ _ _ _).mp hcell
    unfold inside at hin
    unfold handleCellClick
    rw [if_neg (not_not_intro hst)]
    unfold rowGet
    rw [if_pos ⟨hin.1, hin.2.1⟩]
    dsimp only
    have hcol : colGet (s.board r.toNat) c = some p := by
      unfold colGet
      rw [if_pos ⟨hin.2.2.1, hin.2.2.2⟩, hraw]
    rw [hcol]
    rw [if_pos (by exact fun he => hp (Option.some.inj he))]
  · rw [if_neg hst]
    unfold handleCellClick
    rw [if_pos hst]

/-- Witness for the amended C6 at the occupied opening cell. -/
theorem C6_occupied_rejected_witness :
    getCell oneMoveState.board 0 0 = some PieceType.black ∧
    PieceType.black ≠ PieceType.empty ∧
    handleCellClick oneMoveState 0 0 = PlaceResult.rejected
      (if oneMoveState.gameStatus = GameStatus.playing then PlaceError.cellOccupied
       else PlaceError.gameNotInProgress) oneMoveState :=
  ⟨by decide, by decide,
    C6_occupied_rejected oneMoveState 0 0 PieceType.black (by decide) (by decide)⟩

/-! Fuel lemmas for the win scan -/

lemma consecCount_min (b : Board) (p : PieceType) (dx dy : Int) :
    ∀ (k m : Nat) (r c : Int),
      consecCount b p dx dy r c k = min (consecCount b p dx dy r c (k + m)) k := by
  intro k
  induction k with
  | zero => intro m r c; simp [consecCount]
  | succ k ih =>
    intro m r c
    have hsucc : k + 1 + m = (k + m) + 1 := by omega
    rw [hsucc]
    by_cases hcell : getCell b (r + dx) (c + dy) = some p
    · simp only [consecCount]
      rw [if_pos hcell, if_pos hcell, ih m (r + dx) (c + dy)]
      omega
    · simp only [consecCount]
      rw [if_neg hcell, if_neg hcell]
      simp

/-- Claim C3: for any scan depth `n ≥ 4` — in particular depths that exhaust
the whole board, so the scans below stop only at a non-matching or
out-of-range cell — `checkWin` returns true exactly when some orientation's
total count (the placed stone plus the consecutive same-player stones in both
directions) reaches 5; overlines are included since the test is `≥ 5`. -/
theorem C3_checkWin_iff (b : Board) (r c : Int) (p : PieceType) (n : Nat) (hn : 4 ≤ n) :
    checkWin b r c p = true ↔
      ∃ d ∈ directions,
        5 ≤ 1 + consecCount b p d.1 d.2 r c n + consecCount b p (-d.1) (-d.2) r c n := by
  unfold checkWin
  rw [List.any_eq_true]
  apply exists_congr
  intro d
  apply and_congr_right
  intro _
  rw [decide_eq_true_eq]
  obtain ⟨m, rfl⟩ : ∃ m, n = 4 + m := ⟨n - 4, by omega⟩
  rw [consecCount_min b p d.1 d.2 4 m r c, consecCount_min b p (-d.1) (-d.2) 4 m r c]
  omega

/-- A board with a horizontal BLACK five in row 7, columns 3–7. -/
def winBoard : Board := fun r c =>
  if r = 7 ∧ 3 ≤ c ∧ c ≤ 7 then PieceType.black else PieceType.empty

/-- Witness for C3 on a board with a five-in-a-row through (7,5). -/
theorem C3_checkWin_iff_witness :
    4 ≤ 15 ∧ (checkWin winBoard 7 5 PieceType.black = true ↔
      ∃ d ∈ directions,
        5 ≤ 1 + consecCount winBoard PieceType.black d.1 d.2 7 5 15
          + consecCount winBoard PieceType.black (-d.1) (-d.2) 7 5 15) :=
  ⟨by decide, C3_checkWin_iff winBoard 7 5 PieceType.black 15 (by decide)⟩

/-! The win scan never reads the placed cell -/

lemma consecCount_congr (b b₁ : Board) (p : PieceType) (dx dy : Int) :
    ∀ (k : Nat) (r c : Int),
      (∀ i : Nat, 1 ≤ i → i ≤ k →
        getCell b (r + i * dx) (c + i * dy) = getCell b₁ (r + i * dx) (c + i * dy)) →
      consecCount b p dx dy r c k = consecCount b₁ p dx dy r c k := by
  intro k
  induction k with
  | zero => intro r c _; rfl
  | succ k ih =>
    intro r c hcells
    have h1 : getCell b (r + dx) (c + dy) = getCell b₁ (r + dx) (c + dy) := by
      have := hcells 1 le_rfl (by omega)
      simpa using this
    simp only [consecCount]
    rw [h1]
    by_cases hcell : getCell b₁ (r + dx) (c + dy) = some p
    · rw [if_pos hcell, if_pos hcell]
      congr 1
      apply ih
      intro i hi1 hik
      have hmain := hcells (i + 1) (by omega) (by omega)
      have harg1 : r + dx + i * dx = r + ((i : Nat) + 1 : Nat) * dx := by
        push_cast
        ring
      have harg2 : c + dy + i * dy = c + ((i : Nat) + 1 : Nat) * dy := by
        push_cast
        ring
      rw [harg1, harg2]
      exact hmain
    · rw [if_neg hcell, if_neg hcell]

lemma offCenter (dx dy r c : Int) (hne : ¬(dx = 0 ∧ dy = 0)) (i : Nat) (hi : 1 ≤ i) :
    ¬(r + i * dx = r ∧ c + i * dy = c) := by
  intro hc
  obtain ⟨h1, h2⟩ := hc
  have hdx : (i : Int) * dx = 0 := by omega
  have hdy : (i : Int) * dy = 0 := by omega
  have hi0 : (i : Int) ≠ 0 := by
    intro h0
    have : i = 0 := by exact_mod_cast h0
    omega
  rcases mul_eq_zero.mp hdx with h | h
  · exact hi0 h
  · rcases mul_eq_zero.mp hdy with h3 | h3
    · exact hi0 h3
    · exact hne ⟨h, h3⟩

/-- Claim C9: `checkWin(row, col, player)` never reads the board at
`(row, col)` itself — it only reads cells at distance 1 to 4 along the four
orientations — so any two boards that agree off that cell produce the same
result.  This is why evaluating `checkWin` against the pre-placement snapshot
still classifies the post-placement position correctly. -/
theorem C9_checkWin_center_independent (b b₁ : Board) (r c : Int) (p : PieceType)
    (hagree : ∀ r₁ c₁ : Int, ¬(r₁ = r ∧ c₁ = c) →
      getCell b r₁ c₁ = getCell b₁ r₁ c₁) :
    checkWin b r c p = checkWin b₁ r c p := by
  have key : ∀ dx dy : Int, ¬(dx = 0 ∧ dy = 0) →
      consecCount b p dx dy r c 4 = consecCount b₁ p dx dy r c 4 := by
    intro dx dy hne
    apply consecCount_congr
    intro i hi1 _
    exact hagree _ _ (offCenter dx dy r c hne i hi1)
  unfold checkWin
  simp only [directions, List.any_cons, List.any_nil, neg_zero, neg_neg]
  rw [key 0 1 (by decide), key 1 0 (by decide), key 1 1 (by decide),
      key 1 (-1) (by decide), key 0 (-1) (by decide), key (-1) 0 (by decide),
      key (-1) (-1) (by decide), key (-1) 1 (by decide)]

/-- Witness for C9: the empty board against the board with one stone at the
scanned cell itself. -/
theorem C9_checkWin_center_independent_witness :
    (∀ r₁ c₁ : Int, ¬(r₁ = 0 ∧ c₁ = 0) →
      getCell emptyBoard r₁ c₁ = getCell (setCell emptyBoard 0 0 PieceType.black) r₁ c₁) ∧
    checkWin emptyBoard 0 0 PieceType.black
      = checkWin (setCell emptyBoard 0 0 PieceType.black) 0 0 PieceType.black := by
  have hagree : ∀ r₁ c₁ : Int, ¬(r₁ = 0 ∧ c₁ = 0) →
      getCell emptyBoard r₁ c₁ = getCell (setCell emptyBoard 0 0 PieceType.black) r₁ c₁ := by
    intro r₁ c₁ h
    exact (getCell_setCell_ne emptyBoard 0 0 r₁ c₁ PieceType.black h).symm
  exact ⟨hagree, C9_checkWin_center_independent _ _ 0 0 PieceType.black hagree⟩

/-! The draw-detection bug -/

/-- A board whose 224 filled cells follow the pattern BLACK iff
`(r + c) % 4 < 2`, with only (14,14) still EMPTY. -/
def drawBoard : Board := fun r c =>
  if r = 14 ∧ c = 14 then PieceType.empty
  else if (r + c) % 4 < 2 then PieceType.black else PieceType.white

/-- The game one placement away from a full board: BLACK to move at the last
empty cell (14,14). -/
def drawState : GameState :=
  { board := drawBoard, currentPlayer := PieceType.black,
    gameStatus := GameStatus.playing, moveHistory := [], lastMove := none }

/-- The status of the state produced by an accepted placement. -/
def resultStatus : PlaceResult → Option GameStatus
  | PlaceResult.ok s => some s.gameStatus
  | _ => none

/-- Whether an accepted placement produced a completely filled board. -/
def resultBoardFull : PlaceResult → Bool
  | PlaceResult.ok s => checkDraw s.board
  | _ => false

/-- Claim C1 (code bug): placing the stone that fills the last empty cell of
the board, without producing a win, does NOT set the status to DRAW.  The
placement is accepted and the resulting board is full, yet the status stays
PLAYING, because `handleCellClick` calls `checkDraw` on the closure's
pre-placement board snapshot, where the just-filled cell is still EMPTY, so
`checkDraw` returns false on every accepted placement and DRAW is
unreachable. -/
theorem C1_draw_never_detected :
    checkWin drawState.board 14 14 drawState.currentPlayer = false ∧
    resultBoardFull (handleCellClick drawState 14 14) = true ∧
    resultStatus (handleCellClick drawState 14 14) = some GameStatus.playing := by
  refine ⟨by decide, by decide, by decide⟩
